import Mathlib

/-!
# Contact-form pipeline of `script.js`

A shallow embedding of the contact-form logic of `src/script.js`
(`formSubmissions`, `checkRateLimit`, `sanitizeInput`, `validateEmail`,
`validatePhone` and the `submit` listener of `#contact-form`), followed by
theorems about it.

Conventions of the embedding:

* a JavaScript string is the list of its UTF-16 code units (`JSString`), so that
  `.length` is `List.length` and a regular expression without the `u` flag
  consumes one list element per step;
* `Date.now()` is a parameter `now : Int` (milliseconds);
* the global object `formSubmissions` is passed in and returned explicitly.
-/

namespace ArproScript

/-! ## Strings -/

/-- A JavaScript string: the sequence of its UTF-16 code units. -/
abbrev JSString := List Nat

/-- UTF-16 code units of one Unicode scalar value. -/
def utf16Char (c : Char) : List Nat :=
  if c.toNat < 0x10000 then [c.toNat]
  else [0xD800 + (c.toNat - 0x10000) / 0x400, 0xDC00 + (c.toNat - 0x10000) % 0x400]

/-- The JavaScript string written by a literal. -/
def utf16 (s : String) : JSString :=
  (s.toList.map utf16Char).flatten

/-- ECMAScript `WhiteSpace` and `LineTerminator` code units: the set matched by
`\s` in a regular expression and removed by `String.prototype.trim`. -/
def isWhiteSpace (c : Nat) : Bool :=
  c == 0x09 || c == 0x0A || c == 0x0B || c == 0x0C || c == 0x0D || c == 0x20 ||
  c == 0xA0 || c == 0x1680 || (0x2000 ≤ c && c ≤ 0x200A) ||
  c == 0x2028 || c == 0x2029 || c == 0x202F || c == 0x205F || c == 0x3000 ||
  c == 0xFEFF

/-- `String.prototype.trim`. -/
def trim (s : JSString) : JSString :=
  ((s.dropWhile isWhiteSpace).reverse.dropWhile isWhiteSpace).reverse

/-- JavaScript truthiness of a string: `""` is falsy. -/
def truthyStr (s : JSString) : Bool := !s.isEmpty

/-! ## Rate limiting -/

/-- The mutable fields of the global `formSubmissions`
(`firstSubmission` is `null` or a timestamp). -/
structure FormSubmissions where
  count : Nat
  firstSubmission : Option Int
deriving DecidableEq, Repr

/-- `formSubmissions.MAX_SUBMISSIONS`. -/
def MAX_SUBMISSIONS : Nat := 3

/-- `formSubmissions.TIME_WINDOW` (one hour in milliseconds). -/
def TIME_WINDOW : Int := 3600000

/-- The value of `formSubmissions` at page load. -/
def initialSubmissions : FormSubmissions := { count := 0, firstSubmission := none }

/-- JavaScript `!x` for `x` being `null` or a number: `null` and `0` are falsy. -/
def notTime : Option Int → Bool
  | none => true
  | some t => t == 0

/-- `checkRateLimit()`, with `Date.now()` passed as `now`; returns the boolean
result and the new value of `formSubmissions`. -/
def checkRateLimit (fs : FormSubmissions) (now : Int) : Bool × FormSubmissions :=
  if notTime fs.firstSubmission then
    (true, { count := 1, firstSubmission := some now })
  else if now - fs.firstSubmission.getD 0 > TIME_WINDOW then
    (true, { count := 1, firstSubmission := some now })
  else if fs.count ≥ MAX_SUBMISSIONS then
    (false, fs)
  else
    (true, { fs with count := fs.count + 1 })

/-- Successive `checkRateLimit()` calls at the given clock values: the list of
results and the final `formSubmissions`. -/
def runChecks : FormSubmissions → List Int → List Bool × FormSubmissions
  | fs, [] => ([], fs)
  | fs, now :: rest =>
    let r := checkRateLimit fs now
    let rs := runChecks r.2 rest
    (r.1 :: rs.1, rs.2)

/-! ## Regular expressions

Both regular expressions of the script have the form `^ t₁ t₂ … tₙ $` where every
term `tᵢ` is a character class with a quantifier (`c`, `c?`, `c+` or `c{m,n}`),
and neither has flags. `RegExp.prototype.test` on such an expression is modelled
by a backtracking matcher over the list of terms. -/

/-- One term of a regular expression: a character class and its quantifier
`{min,max}`, `max = none` meaning unbounded. -/
structure Term where
  cls : Nat → Bool
  min : Nat
  max : Option Nat

/-- A class matched once. -/
def Term.one (p : Nat → Bool) : Term := { cls := p, min := 1, max := some 1 }
/-- Quantifier `?`. -/
def Term.opt (p : Nat → Bool) : Term := { cls := p, min := 0, max := some 1 }
/-- Quantifier `+`. -/
def Term.plus (p : Nat → Bool) : Term := { cls := p, min := 1, max := none }
/-- Quantifier `{m,n}`. -/
def Term.rep (p : Nat → Bool) (m n : Nat) : Term := { cls := p, min := m, max := some n }

/-- Consume exactly `n` code units of class `p`, then continue with `k`. -/
def eatExactly (p : Nat → Bool) (k : JSString → Bool) : Nat → JSString → Bool
  | 0, s => k s
  | _ + 1, [] => false
  | n + 1, c :: t => p c && eatExactly p k n t

/-- Consume at most `n` code units of class `p` (longest first, backtracking),
then continue with `k`. -/
def eatUpTo (p : Nat → Bool) (k : JSString → Bool) : Nat → JSString → Bool
  | 0, s => k s
  | _ + 1, [] => k []
  | n + 1, c :: t => (p c && eatUpTo p k n t) || k (c :: t)

/-- Match one quantified term at the head of `s`, then continue with `k`. -/
def Term.run (t : Term) (k : JSString → Bool) (s : JSString) : Bool :=
  eatExactly t.cls
    (fun r => eatUpTo t.cls k (match t.max with | some m => m - t.min | none => r.length) r)
    t.min s

/-- Match `t₁ … tₙ $` at the head of `s`. -/
def matchTerms : List Term → JSString → Bool
  | [], s => s.isEmpty
  | t :: rest, s => t.run (matchTerms rest) s

/-- `re.test(s)` for `re = /^ t₁ … tₙ $/`. -/
def regexTest (re : List Term) (s : JSString) : Bool := matchTerms re s

/-! ## Form validation helpers -/

/-- Code unit of `@`. -/
def chAt : Nat := 64
/-- Code unit of `.`. -/
def chDot : Nat := 46
/-- Code unit of `+`. -/
def chPlus : Nat := 43
/-- Code unit of `(`. -/
def chLParen : Nat := 40
/-- Code unit of `)`. -/
def chRParen : Nat := 41
/-- Code unit of `-`. -/
def chMinus : Nat := 45

/-- Class `[^\s@]`. -/
def notSpaceAt (c : Nat) : Bool := !(isWhiteSpace c || c == chAt)
/-- Class `[0-9]`. -/
def isDigit (c : Nat) : Bool := 48 ≤ c && c ≤ 57
/-- Class `[-\s\.]`. -/
def isSep (c : Nat) : Bool := c == chMinus || isWhiteSpace c || c == chDot

/-- The expression `/^[^\s@]+@[^\s@]+\.[^\s@]+$/`. -/
def emailRe : List Term :=
  [Term.plus notSpaceAt, Term.one (· == chAt), Term.plus notSpaceAt,
   Term.one (· == chDot), Term.plus notSpaceAt]

/-- `validateEmail(email)`. -/
def validateEmail (email : JSString) : Bool := regexTest emailRe email

/-- The expression
`/^[\+]?[(]?[0-9]{1,4}[)]?[-\s\.]?[(]?[0-9]{1,4}[)]?[-\s\.]?[0-9]{1,4}[-\s\.]?[0-9]{1,9}$/`. -/
def phoneRe : List Term :=
  [Term.opt (· == chPlus),
   Term.opt (· == chLParen), Term.rep isDigit 1 4, Term.opt (· == chRParen), Term.opt isSep,
   Term.opt (· == chLParen), Term.rep isDigit 1 4, Term.opt (· == chRParen), Term.opt isSep,
   Term.rep isDigit 1 4, Term.opt isSep,
   Term.rep isDigit 1 9]

/-- The call `phone.replace(/\s/g, '')`. -/
def stripSpaces (phone : JSString) : JSString := phone.filter (fun c => !isWhiteSpace c)

/-- `validatePhone(phone)`. -/
def validatePhone (phone : JSString) : Bool := regexTest phoneRe (stripSpaces phone)

/-! ## Sanitising

`sanitizeInput` assigns its argument to `textContent` of a fresh `div` and reads
`innerHTML` back. The two DOM accessors are embedded as the DOM and HTML
standards define them: the setter replaces the children by one `Text` node
holding the string (by nothing when the string is empty), the getter runs the
HTML fragment serialisation algorithm, which for a `Text` child of a `div`
emits the node's data with `&`, U+00A0, `<` and `>` escaped (the quote
characters are escaped in attribute values only). -/

/-- The children a `div` can have here: `Text` nodes. -/
inductive Node where
  | text (data : JSString)
deriving DecidableEq, Repr

/-- Escaping of one code unit of a `Text` node in HTML serialisation. -/
def escapeUnit (c : Nat) : JSString :=
  if c = 38 then [38, 97, 109, 112, 59]              -- `&amp;`
  else if c = 160 then [38, 110, 98, 115, 112, 59]   -- `&nbsp;`
  else if c = 60 then [38, 108, 116, 59]             -- `&lt;`
  else if c = 62 then [38, 103, 116, 59]             -- `&gt;`
  else [c]

/-- Escaping a string, not in attribute mode. -/
def escapeText (s : JSString) : JSString := (s.map escapeUnit).flatten

/-- The setter `div.textContent = input` on a `div` without children. -/
def setTextContent (input : JSString) : List Node :=
  if input.isEmpty then [] else [Node.text input]

/-- The getter `div.innerHTML`, from the children of the `div`. -/
def innerHTML (children : List Node) : JSString :=
  (children.map fun n => match n with | Node.text d => escapeText d).flatten

/-- `sanitizeInput(input)`. -/
def sanitizeInput (input : JSString) : JSString := innerHTML (setTextContent input)

/-! ## The submit listener -/

/-- The entries read from `new FormData(contactForm)`: the five visible fields
and the hidden honeypot field `website` (`null` when the form has no such
control). -/
structure FormData where
  name : JSString
  email : JSString
  phone : JSString
  service : JSString
  message : JSString
  website : Option JSString

/-- JavaScript truthiness of `formData.get('website')`. -/
def truthyHoneypot : Option JSString → Bool
  | none => false
  | some s => truthyStr s

/-- The path on which the listener finishes. -/
inductive Outcome where
  | SpamRejected
  | RateLimited
  | ValidationFailed
  | Submitted
  | TransmitFailed
deriving DecidableEq, Repr

/-- Running state of the validation block: the `showError(fieldId, message)`
calls made so far, in order, and the local variable `hasErrors`. -/
structure Validation where
  shown : List (String × String)
  hasErrors : Bool

/-- A `showError(fieldId, message)` call followed by `hasErrors = true`. -/
def Validation.fail (v : Validation) (fieldId message : String) : Validation :=
  { shown := v.shown ++ [(fieldId, message)], hasErrors := true }

/-- The `if (!name) … else if … else if …` statement. -/
def checkName (name : JSString) (v : Validation) : Validation :=
  if !truthyStr name then v.fail "name" "Name is required"
  else if name.length < 2 then v.fail "name" "Name must be at least 2 characters"
  else if name.length > 100 then v.fail "name" "Name is too long"
  else v

/-- The `if (!email) … else if (!validateEmail(email)) …` statement. -/
def checkEmail (email : JSString) (v : Validation) : Validation :=
  if !truthyStr email then v.fail "email" "Email is required"
  else if !validateEmail email then v.fail "email" "Please enter a valid email address"
  else v

/-- The `if (phone && !validatePhone(phone)) …` statement. -/
def checkPhone (phone : JSString) (v : Validation) : Validation :=
  if truthyStr phone && !validatePhone phone then
    v.fail "phone" "Please enter a valid phone number"
  else v

/-- The `if (!message) … else if … else if …` statement. -/
def checkMessage (message : JSString) (v : Validation) : Validation :=
  if !truthyStr message then v.fail "message" "Message is required"
  else if message.length < 10 then v.fail "message" "Message must be at least 10 characters"
  else if message.length > 1000 then
    v.fail "message" "Message is too long (max 1000 characters)"
  else v

/-- The whole validation block, from `let hasErrors = false` on. -/
def validateFields (name email phone message : JSString) : Validation :=
  checkMessage message (checkPhone phone (checkEmail email (checkName name
    { shown := [], hasErrors := false })))

/-- The object `sanitizedData`. -/
structure SanitizedData where
  name : JSString
  email : JSString
  phone : JSString
  service : JSString
  message : JSString
deriving DecidableEq, Repr

/-- What the listener leaves behind: the path taken, `formStatus.className`,
`formStatus.textContent`, the `showError` calls made, `formSubmissions`, and
`sanitizedData` when it was built. -/
structure SubmitResult where
  outcome : Outcome
  statusClass : String
  statusText : JSString
  shown : List (String × String)
  submissions : FormSubmissions
  payload : Option SanitizedData

/-- The `submit` listener of `#contact-form`. `fs` is `formSubmissions` on entry,
`now` the value of `Date.now()`, and `sendThrows` tells whether the `try` block
throws. -/
def submitHandler (form : FormData) (fs : FormSubmissions) (now : Int)
    (sendThrows : Bool) : SubmitResult :=
  let name := trim form.name
  let email := trim form.email
  let phone := trim form.phone
  let service := form.service
  let message := trim form.message
  let honeypot := form.website
  if truthyHoneypot honeypot then
    { outcome := Outcome.SpamRejected, statusClass := "error",
      statusText := utf16 "Form submission failed. Please try again.",
      shown := [], submissions := fs, payload := none }
  else
    let limit := checkRateLimit fs now
    if !limit.1 then
      { outcome := Outcome.RateLimited, statusClass := "error",
        statusText := utf16 "Too many submission attempts. Please try again later.",
        shown := [], submissions := limit.2, payload := none }
    else
      let v := validateFields name email phone message
      if v.hasErrors then
        { outcome := Outcome.ValidationFailed, statusClass := "error",
          statusText := utf16 "Please correct the errors above",
          shown := v.shown, submissions := limit.2, payload := none }
      else
        let sanitizedData : SanitizedData :=
          { name := sanitizeInput name, email := sanitizeInput email,
            phone := sanitizeInput phone, service := sanitizeInput service,
            message := sanitizeInput message }
        if sendThrows then
          { outcome := Outcome.TransmitFailed, statusClass := "error",
            statusText := utf16 ("There was an error sending your message. " ++
              "Please try again later or contact us directly."),
            shown := v.shown, submissions := limit.2, payload := some sanitizedData }
        else
          { outcome := Outcome.Submitted, statusClass := "success",
            statusText := utf16 "Thank you for contacting ARPRO, " ++ sanitizedData.name ++
              utf16 "! We\x27ll get back to you shortly at " ++ sanitizedData.email ++ utf16 ".",
            shown := v.shown, submissions := limit.2, payload := some sanitizedData }

/-- The fields for which `showError` was called. -/
def SubmitResult.errorFields (r : SubmitResult) : List String := r.shown.map Prod.fst

/-! ## Reading serialised text back

The second half of the sanitising round trip is not in the script: it is what an
HTML parser does when the serialised text is parsed as the content of a `div`
(as `div.innerHTML = text` followed by reading `div.textContent`). The HTML
standard has three steps that touch such text, embedded here in its order:

1. preprocessing of the input stream normalises newlines: every CR LF pair and
   every other CR becomes one LF (`normalizeNewlines`);
2. the tokenizer resolves character references (`resolveRefs`);
3. tree construction in the body ignores every U+0000 character (`dropNul`).

Of the parser's table of character references, `resolveRefs` knows the four the
serialiser writes, `&amp;`, `&lt;`, `&gt;` and `&nbsp;`, and copies any other code
unit. It is applied to serialiser output only, in which every `&` starts one of
these four (that is part of the theorem about `sanitizeInput`), so no other
entry of the table can apply. -/

/-- Newline normalisation of the HTML input stream. -/
def normalizeNewlines : JSString → JSString
  | 13 :: 10 :: r => 10 :: normalizeNewlines r
  | 13 :: r => 10 :: normalizeNewlines r
  | c :: r => c :: normalizeNewlines r
  | [] => []

/-- Resolve `&amp;`, `&lt;`, `&gt;` and `&nbsp;`; copy everything else. -/
def resolveRefs : JSString → JSString
  | 38 :: 97 :: 109 :: 112 :: 59 :: r => 38 :: resolveRefs r
  | 38 :: 108 :: 116 :: 59 :: r => 60 :: resolveRefs r
  | 38 :: 103 :: 116 :: 59 :: r => 62 :: resolveRefs r
  | 38 :: 110 :: 98 :: 115 :: 112 :: 59 :: r => 160 :: resolveRefs r
  | c :: r => c :: resolveRefs r
  | [] => []

/-- Removal of the U+0000 characters, which the tree builder ignores. -/
def dropNul (s : JSString) : JSString := s.filter (fun c => c != 0)

/-- The text a `div` holds after serialised text was parsed into it. -/
def parseText (html : JSString) : JSString :=
  dropNul (resolveRefs (normalizeNewlines html))

/-- The character references written by `escapeUnit`. -/
def charRefs : List JSString :=
  [[38, 97, 109, 112, 59], [38, 110, 98, 115, 112, 59], [38, 108, 116, 59], [38, 103, 116, 59]]

/-! ## Vocabulary of the statements -/

/-- Both resetting branches of `checkRateLimit` produce the same state. -/
def freshWindow (now : Int) : FormSubmissions := { count := 1, firstSubmission := some now }

/-- The invariant of `formSubmissions`. -/
def CountInv (fs : FormSubmissions) : Prop :=
  fs.count ≤ MAX_SUBMISSIONS ∧ (fs.firstSubmission ≠ none → 1 ≤ fs.count)

/-- The rule a trimmed name violates. -/
def nameBad (name : JSString) : Prop := name.length < 2 ∨ 100 < name.length
/-- The rule a trimmed email violates. -/
def emailBad (email : JSString) : Prop := email = [] ∨ validateEmail email = false
/-- The rule a trimmed phone violates. -/
def phoneBad (phone : JSString) : Prop := phone ≠ [] ∧ validatePhone phone = false
/-- The rule a trimmed message violates. -/
def messageBad (message : JSString) : Prop := message.length < 10 ∨ 1000 < message.length

instance (s : JSString) : Decidable (nameBad s) := by unfold nameBad; infer_instance
instance (s : JSString) : Decidable (emailBad s) := by unfold emailBad; infer_instance
instance (s : JSString) : Decidable (phoneBad s) := by unfold phoneBad; infer_instance
instance (s : JSString) : Decidable (messageBad s) := by unfold messageBad; infer_instance

/-- A well-formed submission. -/
def goodForm : FormData :=
  { name := utf16 "Ann", email := utf16 "a@b.com", phone := utf16 "+61 427 661 175",
    service := utf16 "repairs", message := utf16 "A long enough message", website := some [] }

/-- The same submission with the honeypot field filled in. -/
def spamForm : FormData := { goodForm with website := some (utf16 "x") }

/-- A submission breaking three rules. -/
def badForm : FormData :=
  { name := utf16 "", email := utf16 "bad", phone := utf16 "", service := utf16 "",
    message := utf16 "short", website := none }

/-- The strings one quantified term matches. -/
def Term.Accepts (t : Term) (w : JSString) : Prop :=
  t.min ≤ w.length ∧ (∀ m, t.max = some m → w.length ≤ m) ∧ ∀ c ∈ w, t.cls c = true

/-- The part of a string before its first `@`. -/
def localPart (s : JSString) : JSString := s.takeWhile (fun c => c != chAt)

/-- The part of a string after its first `@`. -/
def domainPart (s : JSString) : JSString := (s.dropWhile (fun c => c != chAt)).drop 1

/-- The shape `local@domain.tld` as the specification words it: no white space,
exactly one `@`, something before the `@`, and after the `@` a `.` that is
neither the first nor the last code unit. -/
def EmailShape (s : JSString) : Prop :=
  (∀ c ∈ s, isWhiteSpace c = false) ∧ s.count chAt = 1 ∧ localPart s ≠ [] ∧
  ∃ i, 0 < i ∧ i + 1 < (domainPart s).length ∧ (domainPart s)[i]? = some chDot

/-- An optional single code unit with property `P`. -/
def OptUnit (P : Nat → Prop) (w : JSString) : Prop := w = [] ∨ ∃ c, P c ∧ w = [c]

/-- A group of `lo` to `hi` digits. -/
def DigitGroup (lo hi : Nat) (w : JSString) : Prop :=
  lo ≤ w.length ∧ w.length ≤ hi ∧ ∀ c ∈ w, isDigit c = true

/-- A separator that can occur once white space is removed: `-` or `.`. -/
def IsSeparator (c : Nat) : Prop := c = chMinus ∨ c = chDot

/-- A group of 1 to 4 digits, bare or enclosed in a matching pair of parentheses. -/
def ParenGroup (w : JSString) : Prop :=
  ∃ g, DigitGroup 1 4 g ∧ (w = g ∨ w = chLParen :: (g ++ [chRParen]))

/-- The phone shape as the specification words it: optional `+`, two groups of
1 to 4 digits, each bare or in a matching pair of parentheses and each with an
optional separator after it, a bare group of 1 to 4 digits with an optional
separator, and a final group of 1 to 9 digits. -/
def StrictPhoneShape (t : JSString) : Prop :=
  ∃ plus gp1 sep1 gp2 sep2 g3 sep3 g4,
    t = plus ++ (gp1 ++ (sep1 ++ (gp2 ++ (sep2 ++ (g3 ++ (sep3 ++ g4)))))) ∧
    OptUnit (fun c => c = chPlus) plus ∧
    ParenGroup gp1 ∧ OptUnit IsSeparator sep1 ∧
    ParenGroup gp2 ∧ OptUnit IsSeparator sep2 ∧
    DigitGroup 1 4 g3 ∧ OptUnit IsSeparator sep3 ∧
    DigitGroup 1 9 g4

/-- The phone shape the expression accepts: as `StrictPhoneShape`, but the `(`
before and the `)` after each of the first two groups are optional independently
of each other. -/
def LoosePhoneShape (t : JSString) : Prop :=
  ∃ plus lp1 g1 rp1 sep1 lp2 g2 rp2 sep2 g3 sep3 g4,
    t = plus ++ (lp1 ++ (g1 ++ (rp1 ++ (sep1 ++ (lp2 ++ (g2 ++ (rp2 ++ (sep2 ++
          (g3 ++ (sep3 ++ g4)))))))))) ∧
    OptUnit (fun c => c = chPlus) plus ∧
    OptUnit (fun c => c = chLParen) lp1 ∧ DigitGroup 1 4 g1 ∧
    OptUnit (fun c => c = chRParen) rp1 ∧ OptUnit IsSeparator sep1 ∧
    OptUnit (fun c => c = chLParen) lp2 ∧ DigitGroup 1 4 g2 ∧
    OptUnit (fun c => c = chRParen) rp2 ∧ OptUnit IsSeparator sep2 ∧
    DigitGroup 1 4 g3 ∧ OptUnit IsSeparator sep3 ∧
    DigitGroup 1 9 g4

/-- Every `&` of `out` is the first code unit of one of the character references
`&amp;`, `&nbsp;`, `&lt;`, `&gt;`. -/
def AmpStartsRef (out : JSString) : Prop :=
  ∀ pre suf, out = pre ++ 38 :: suf → ∃ ref ∈ charRefs, ref <+: 38 :: suf

/-! ## Theorems: rate limiting -/

theorem checkRateLimit_of_falsy (fs : FormSubmissions) (now : Int)
    (h : notTime fs.firstSubmission = true) :
    checkRateLimit fs now = (true, freshWindow now) := by
  simp [checkRateLimit, h, freshWindow]

theorem checkRateLimit_of_expired (fs : FormSubmissions) (ws now : Int)
    (h : fs.firstSubmission = some ws) (hlt : TIME_WINDOW < now - ws) :
    checkRateLimit fs now = (true, freshWindow now) := by
  unfold checkRateLimit
  by_cases hz : notTime fs.firstSubmission = true
  · simp [hz, freshWindow]
  · simp [hz, h, hlt, freshWindow]

theorem checkRateLimit_in_window (fs : FormSubmissions) (ws now : Int)
    (h : fs.firstSubmission = some ws) (hz : ws ≠ 0) (hle : now - ws ≤ TIME_WINDOW) :
    checkRateLimit fs now =
      if MAX_SUBMISSIONS ≤ fs.count then (false, fs)
      else (true, { fs with count := fs.count + 1 }) := by
  have h1 : ¬ (notTime fs.firstSubmission = true) := by simp [h, notTime, hz]
  have h2 : ¬ (now - fs.firstSubmission.getD 0 > TIME_WINDOW) := by
    rw [h, Option.getD_some]
    omega
  unfold checkRateLimit
  rw [if_neg h1, if_neg h2]

theorem countInv_initial : CountInv initialSubmissions := by
  simp [CountInv, initialSubmissions]

theorem countInv_checkRateLimit (fs : FormSubmissions) (now : Int) (h : CountInv fs) :
    CountInv (checkRateLimit fs now).2 := by
  obtain ⟨h1, h2⟩ := h
  unfold checkRateLimit
  split_ifs with a b c
  · simp [CountInv, MAX_SUBMISSIONS]
  · simp [CountInv, MAX_SUBMISSIONS]
  · exact ⟨h1, h2⟩
  · refine ⟨?_, ?_⟩
    · simp only [ge_iff_le, not_le] at c
      simp only
      omega
    · intro _
      simp

theorem countInv_runChecks (clocks : List Int) :
    ∀ fs : FormSubmissions, CountInv fs → CountInv (runChecks fs clocks).2 := by
  induction clocks with
  | nil => intro fs h; simpa [runChecks] using h
  | cons now rest ih =>
    intro fs h
    simp only [runChecks]
    exact ih _ (countInv_checkRateLimit fs now h)

/-- Inside one window that was opened at a non-zero clock value, the `i`-th
further call is allowed exactly while the count stays below the limit. -/
theorem runChecks_in_window (ws : Int) (hz : ws ≠ 0) (clocks : List Int)
    (hw : ∀ t ∈ clocks, t - ws ≤ TIME_WINDOW) :
    ∀ fs : FormSubmissions, fs.firstSubmission = some ws →
      (runChecks fs clocks).1 =
        (List.range clocks.length).map (fun i => decide (fs.count + i < MAX_SUBMISSIONS)) := by
  induction clocks with
  | nil => intro fs _; simp [runChecks]
  | cons now rest ih =>
    intro fs hfs
    have hstep := checkRateLimit_in_window fs ws now hfs hz (hw now (by simp))
    have hrest : ∀ t ∈ rest, t - ws ≤ TIME_WINDOW := fun t ht => hw t (by simp [ht])
    simp only [runChecks, List.length_cons, List.range_succ_eq_map, List.map_cons,
      List.map_map, Nat.add_zero]
    by_cases hc : MAX_SUBMISSIONS ≤ fs.count
    · rw [hstep, if_pos hc]
      simp only
      rw [ih hrest fs hfs]
      have h0 : decide (fs.count < MAX_SUBMISSIONS) = false := by simp; omega
      rw [h0]
      congr 1
      apply List.map_congr_left
      intro i _
      simp only [Function.comp, decide_eq_decide]
      omega
    · rw [hstep, if_neg hc]
      simp only
      rw [ih hrest { count := fs.count + 1, firstSubmission := fs.firstSubmission } hfs]
      have h0 : decide (fs.count < MAX_SUBMISSIONS) = true := by simp; omega
      rw [h0]
      congr 1
      apply List.map_congr_left
      intro i _
      simp only [Function.comp, decide_eq_decide]
      omega

/-- A session whose first attempt is made at a non-zero clock value `t1` and
whose later attempts all come no later than `t1 + TIME_WINDOW`: the first three
calls of `checkRateLimit` return `true`, all later ones `false`. -/
theorem runChecks_session (t1 : Int) (later : List Int) (hz : t1 ≠ 0)
    (hw : ∀ t ∈ later, t - t1 ≤ TIME_WINDOW) :
    (runChecks initialSubmissions (t1 :: later)).1 =
      (List.range (t1 :: later).length).map (fun i => decide (i < MAX_SUBMISSIONS)) := by
  have h1 : checkRateLimit initialSubmissions t1 = (true, freshWindow t1) :=
    checkRateLimit_of_falsy _ _ (by simp [initialSubmissions, notTime])
  simp only [runChecks, h1, List.length_cons, List.range_succ_eq_map, List.map_cons,
    List.map_map]
  rw [runChecks_in_window t1 hz later hw (freshWindow t1) rfl]
  have h0 : decide (0 < MAX_SUBMISSIONS) = true := by decide
  rw [h0]
  congr 1
  apply List.map_congr_left
  intro i _
  simp only [Function.comp, freshWindow, decide_eq_decide]
  omega

theorem runChecks_session_witness :
    (runChecks initialSubmissions [5, 6, 7, 8, 3600005]).1 = [true, true, true, false, false] :=
  runChecks_session 5 [6, 7, 8, 3600005] (by decide) (by decide)

/-- C1, evaluated at the failing session: four attempts, all at clock value `0`.
Every call finds `firstSubmission = 0`, which `!formSubmissions.firstSubmission`
treats like `null`, so each call opens a new window and the fourth attempt is
allowed, with the count back at `1`. -/
theorem runChecks_at_clock_zero :
    runChecks initialSubmissions [0, 0, 0, 0] =
      ([true, true, true, true], { count := 1, firstSubmission := some 0 }) := by
  decide

/-- C2: when the stored window start `ws` lies more than `TIME_WINDOW` before
`now`, `checkRateLimit` returns `true` and leaves `firstSubmission = now`,
`count = 1`, whatever the count was; in particular with the count at
`MAX_SUBMISSIONS` and `now = ws + TIME_WINDOW + 1`. -/
theorem checkRateLimit_window_expiry (fs : FormSubmissions) (ws now : Int)
    (h : fs.firstSubmission = some ws) (hlt : now - ws > TIME_WINDOW) :
    checkRateLimit fs now = (true, { count := 1, firstSubmission := some now }) ∧
    checkRateLimit { count := MAX_SUBMISSIONS, firstSubmission := some ws }
        (ws + TIME_WINDOW + 1) =
      (true, { count := 1, firstSubmission := some (ws + TIME_WINDOW + 1) }) := by
  refine ⟨checkRateLimit_of_expired fs ws now h hlt, ?_⟩
  exact checkRateLimit_of_expired _ ws _ rfl (by simp [TIME_WINDOW]; omega)

theorem checkRateLimit_window_expiry_witness :
    checkRateLimit { count := 3, firstSubmission := some 1000 } 3601001 =
        (true, { count := 1, firstSubmission := some 3601001 }) ∧
    checkRateLimit { count := MAX_SUBMISSIONS, firstSubmission := some 1000 }
        (1000 + TIME_WINDOW + 1) =
      (true, { count := 1, firstSubmission := some (1000 + TIME_WINDOW + 1) }) :=
  checkRateLimit_window_expiry { count := 3, firstSubmission := some 1000 } 1000 3601001
    rfl (by decide)

/-- C7: after any finite sequence of `checkRateLimit` calls from the initial
`formSubmissions`, at arbitrary clock values, `count ≤ MAX_SUBMISSIONS`, and
`count ≥ 1` whenever `firstSubmission` is set. -/
theorem count_never_exceeds_limit (clocks : List Int) :
    (runChecks initialSubmissions clocks).2.count ≤ MAX_SUBMISSIONS ∧
    0 ≤ (runChecks initialSubmissions clocks).2.count ∧
    ((runChecks initialSubmissions clocks).2.firstSubmission ≠ none →
      1 ≤ (runChecks initialSubmissions clocks).2.count) := by
  have h := countInv_runChecks clocks initialSubmissions countInv_initial
  exact ⟨h.1, Nat.zero_le _, h.2⟩

/-- C10, refuted as stated: with the window opened at `1000`, a call at exactly
`1000 + TIME_WINDOW` does not open a new window; it is counted in the old one. -/
theorem checkRateLimit_at_window_end :
    checkRateLimit { count := 1, firstSubmission := some 1000 } (1000 + TIME_WINDOW) =
        (true, { count := 2, firstSubmission := some 1000 }) ∧
    (checkRateLimit { count := 1, firstSubmission := some 1000 } (1000 + TIME_WINDOW)).2 ≠
        { count := 1, firstSubmission := some (1000 + TIME_WINDOW) } := by
  decide

/-- C10, amended: for a window opened at a non-zero clock value `ws`, a call at
`now` is handled inside that window (denied at the limit, counted otherwise,
`firstSubmission` kept) exactly when `now ≤ ws + TIME_WINDOW`, and opens a new
window with `count = 1` exactly when `now > ws + TIME_WINDOW`. -/
theorem checkRateLimit_window_closed (fs : FormSubmissions) (ws now : Int)
    (h : fs.firstSubmission = some ws) (hz : ws ≠ 0) :
    (now ≤ ws + TIME_WINDOW →
      checkRateLimit fs now =
        if MAX_SUBMISSIONS ≤ fs.count then (false, fs)
        else (true, { fs with count := fs.count + 1 })) ∧
    (ws + TIME_WINDOW < now →
      checkRateLimit fs now = (true, { count := 1, firstSubmission := some now })) := by
  refine ⟨fun hle => ?_, fun hlt => ?_⟩
  · exact checkRateLimit_in_window fs ws now h hz (by omega)
  · exact checkRateLimit_of_expired fs ws now h (by omega)

theorem checkRateLimit_window_closed_witness :
    ((1000 : Int) + TIME_WINDOW ≤ 1000 + TIME_WINDOW →
      checkRateLimit { count := 1, firstSubmission := some 1000 } (1000 + TIME_WINDOW) =
        if MAX_SUBMISSIONS ≤ 1 then (false, { count := 1, firstSubmission := some 1000 })
        else (true, { count := 1 + 1, firstSubmission := some 1000 })) ∧
    ((1000 : Int) + TIME_WINDOW < 1000 + TIME_WINDOW →
      checkRateLimit { count := 1, firstSubmission := some 1000 } (1000 + TIME_WINDOW) =
        (true, { count := 1, firstSubmission := some (1000 + TIME_WINDOW) })) :=
  checkRateLimit_window_closed { count := 1, firstSubmission := some 1000 } 1000
    (1000 + TIME_WINDOW) rfl (by decide)

/-! ## Theorems: the submit listener -/

theorem truthyStr_eq_false_iff (s : JSString) : truthyStr s = false ↔ s = [] := by
  cases s <;> simp [truthyStr]

theorem not_truthyStr_iff (s : JSString) : (!truthyStr s) = true ↔ s = [] := by
  cases s <;> simp [truthyStr]

theorem checkName_spec (name : JSString) (v : Validation) :
    (checkName name v).shown.map Prod.fst =
        v.shown.map Prod.fst ++ (if nameBad name then ["name"] else []) ∧
    (checkName name v).hasErrors = (v.hasErrors || decide (nameBad name)) := by
  by_cases hb : nameBad name
  · rw [if_pos hb, decide_eq_true hb, Bool.or_true]
    unfold checkName
    split_ifs with h1 h2 h3
    · simp [Validation.fail]
    · simp [Validation.fail]
    · simp [Validation.fail]
    · exfalso
      unfold nameBad at hb
      omega
  · rw [if_neg hb, decide_eq_false hb, Bool.or_false, List.append_nil]
    unfold checkName
    unfold nameBad at hb
    split_ifs with h1 h2 h3
    · exfalso
      rw [not_truthyStr_iff] at h1
      subst h1
      simp at hb
    · exfalso
      omega
    · exfalso
      omega
    · exact ⟨rfl, rfl⟩

theorem checkEmail_spec (email : JSString) (v : Validation) :
    (checkEmail email v).shown.map Prod.fst =
        v.shown.map Prod.fst ++ (if emailBad email then ["email"] else []) ∧
    (checkEmail email v).hasErrors = (v.hasErrors || decide (emailBad email)) := by
  by_cases hb : emailBad email
  · rw [if_pos hb, decide_eq_true hb, Bool.or_true]
    unfold checkEmail
    split_ifs with h1 h2
    · simp [Validation.fail]
    · simp [Validation.fail]
    · exfalso
      rcases hb with h | h
      · exact h1 ((not_truthyStr_iff _).2 h)
      · simp [h] at h2
  · rw [if_neg hb, decide_eq_false hb, Bool.or_false, List.append_nil]
    unfold checkEmail
    unfold emailBad at hb
    split_ifs with h1 h2
    · exact absurd (Or.inl ((not_truthyStr_iff _).1 h1)) hb
    · exfalso
      apply hb
      right
      simpa using h2
    · exact ⟨rfl, rfl⟩

theorem checkPhone_spec (phone : JSString) (v : Validation) :
    (checkPhone phone v).shown.map Prod.fst =
        v.shown.map Prod.fst ++ (if phoneBad phone then ["phone"] else []) ∧
    (checkPhone phone v).hasErrors = (v.hasErrors || decide (phoneBad phone)) := by
  have key : (truthyStr phone && !validatePhone phone) = true ↔ phoneBad phone := by
    unfold phoneBad
    cases phone <;> simp [truthyStr]
  by_cases hb : phoneBad phone
  · rw [if_pos hb, decide_eq_true hb, Bool.or_true]
    unfold checkPhone
    rw [if_pos (key.2 hb)]
    simp [Validation.fail]
  · rw [if_neg hb, decide_eq_false hb, Bool.or_false, List.append_nil]
    unfold checkPhone
    rw [if_neg (fun h => hb (key.1 h))]
    exact ⟨rfl, rfl⟩

theorem checkMessage_spec (message : JSString) (v : Validation) :
    (checkMessage message v).shown.map Prod.fst =
        v.shown.map Prod.fst ++ (if messageBad message then ["message"] else []) ∧
    (checkMessage message v).hasErrors = (v.hasErrors || decide (messageBad message)) := by
  by_cases hb : messageBad message
  · rw [if_pos hb, decide_eq_true hb, Bool.or_true]
    unfold checkMessage
    split_ifs with h1 h2 h3
    · simp [Validation.fail]
    · simp [Validation.fail]
    · simp [Validation.fail]
    · exfalso
      unfold messageBad at hb
      omega
  · rw [if_neg hb, decide_eq_false hb, Bool.or_false, List.append_nil]
    unfold checkMessage
    unfold messageBad at hb
    split_ifs with h1 h2 h3
    · exfalso
      rw [not_truthyStr_iff] at h1
      subst h1
      simp at hb
    · exfalso
      omega
    · exfalso
      omega
    · exact ⟨rfl, rfl⟩

theorem validateFields_fields (name email phone message : JSString) :
    (validateFields name email phone message).shown.map Prod.fst =
      (if nameBad name then ["name"] else []) ++ (if emailBad email then ["email"] else []) ++
      (if phoneBad phone then ["phone"] else []) ++
      (if messageBad message then ["message"] else []) := by
  unfold validateFields
  rw [(checkMessage_spec _ _).1, (checkPhone_spec _ _).1, (checkEmail_spec _ _).1,
    (checkName_spec _ _).1]
  simp

theorem validateFields_hasErrors (name email phone message : JSString) :
    (validateFields name email phone message).hasErrors =
      (decide (nameBad name) || decide (emailBad email) || decide (phoneBad phone) ||
        decide (messageBad message)) := by
  unfold validateFields
  rw [(checkMessage_spec _ _).2, (checkPhone_spec _ _).2, (checkEmail_spec _ _).2,
    (checkName_spec _ _).2]
  simp

theorem validateFields_hasErrors_iff (name email phone message : JSString) :
    (validateFields name email phone message).hasErrors = true ↔
      (validateFields name email phone message).shown.map Prod.fst ≠ [] := by
  rw [validateFields_hasErrors, validateFields_fields]
  by_cases h1 : nameBad name <;> by_cases h2 : emailBad email <;>
    by_cases h3 : phoneBad phone <;> by_cases h4 : messageBad message <;>
    simp [h1, h2, h3, h4]

theorem mem_validateFields_fields (name email phone message : JSString) (f : String) :
    f ∈ (validateFields name email phone message).shown.map Prod.fst ↔
      (f = "name" ∧ nameBad name) ∨ (f = "email" ∧ emailBad email) ∨
      (f = "phone" ∧ phoneBad phone) ∨ (f = "message" ∧ messageBad message) := by
  rw [validateFields_fields]
  by_cases h1 : nameBad name <;> by_cases h2 : emailBad email <;>
    by_cases h3 : phoneBad phone <;> by_cases h4 : messageBad message <;>
    simp [h1, h2, h3, h4]

/-- Past the honeypot and rate-limit gates the listener shows exactly the errors
of the validation block, and takes the `ValidationFailed` path exactly when
`hasErrors` is set. -/
theorem submitHandler_past_gates (form : FormData) (fs : FormSubmissions) (now : Int)
    (sendThrows : Bool) (hp : truthyHoneypot form.website = false)
    (hl : (checkRateLimit fs now).1 = true) :
    (submitHandler form fs now sendThrows).shown =
        (validateFields (trim form.name) (trim form.email) (trim form.phone)
          (trim form.message)).shown ∧
    ((submitHandler form fs now sendThrows).outcome = Outcome.ValidationFailed ↔
        (validateFields (trim form.name) (trim form.email) (trim form.phone)
          (trim form.message)).hasErrors = true) := by
  unfold submitHandler
  simp only [hp, hl, Bool.false_eq_true, if_false, Bool.not_true]
  cases hv : (validateFields (trim form.name) (trim form.email) (trim form.phone)
      (trim form.message)).hasErrors
  · cases sendThrows <;> simp
  · simp

theorem truthyHoneypot_eq_false_iff (w : Option JSString) :
    truthyHoneypot w = false ↔ w = none ∨ w = some [] := by
  cases w with
  | none => simp [truthyHoneypot]
  | some s => cases s <;> simp [truthyHoneypot, truthyStr]

/-- C3: when the honeypot field `website` holds a non-empty string, the listener
ends on the spam path with the generic error status, whatever the other fields,
`formSubmissions`, the clock and the transport are: no `showError` call is made,
no payload is built and `formSubmissions` is unchanged. -/
theorem honeypot_short_circuits (form : FormData) (fs : FormSubmissions) (now : Int)
    (sendThrows : Bool) (w : JSString) (hw : form.website = some w) (hne : w ≠ []) :
    (submitHandler form fs now sendThrows).outcome = Outcome.SpamRejected ∧
    (submitHandler form fs now sendThrows).statusClass = "error" ∧
    (submitHandler form fs now sendThrows).statusText =
      utf16 "Form submission failed. Please try again." ∧
    (submitHandler form fs now sendThrows).shown = [] ∧
    (submitHandler form fs now sendThrows).payload = none ∧
    (submitHandler form fs now sendThrows).submissions = fs := by
  have hp : truthyHoneypot form.website = true := by
    rw [hw]
    cases w with
    | nil => exact absurd rfl hne
    | cons c t => rfl
  unfold submitHandler
  simp only [hp, if_true, and_self]

theorem honeypot_short_circuits_witness :
    (submitHandler spamForm { count := 2, firstSubmission := some 1000 } 2000 false).outcome =
      Outcome.SpamRejected ∧
    (submitHandler spamForm { count := 2, firstSubmission := some 1000 } 2000 false).statusClass =
      "error" ∧
    (submitHandler spamForm { count := 2, firstSubmission := some 1000 } 2000 false).statusText =
      utf16 "Form submission failed. Please try again." ∧
    (submitHandler spamForm { count := 2, firstSubmission := some 1000 } 2000 false).shown = [] ∧
    (submitHandler spamForm { count := 2, firstSubmission := some 1000 } 2000 false).payload =
      none ∧
    (submitHandler spamForm { count := 2, firstSubmission := some 1000 } 2000 false).submissions =
      { count := 2, firstSubmission := some 1000 } :=
  honeypot_short_circuits spamForm _ 2000 false (utf16 "x") rfl (by decide)

/-- C4: for an attempt that passes the honeypot and rate-limit gates, the fields
for which an error is shown are exactly `name` when the trimmed name has length
below 2 or above 100, `email` when the trimmed email is empty or rejected by
`validateEmail`, `phone` when the trimmed phone is non-empty and rejected by
`validatePhone`, and `message` when the trimmed message has length below 10 or
above 1000; `service` is never among them; the listener ends on the
validation-failure path iff there is such a field. A trimmed message of length 9
gives a `message` error, one of length 10 does not, and name `""`, email `"bad"`,
message `"short"` with an empty phone give exactly `name`, `email`, `message`. -/
theorem validation_reports_all_fields (form : FormData) (fs : FormSubmissions) (now : Int)
    (sendThrows : Bool) (hp : form.website = none ∨ form.website = some [])
    (hl : (checkRateLimit fs now).1 = true) :
    (∀ f : String, f ∈ (submitHandler form fs now sendThrows).errorFields ↔
      (f = "name" ∧ ((trim form.name).length < 2 ∨ 100 < (trim form.name).length)) ∨
      (f = "email" ∧ (trim form.email = [] ∨ validateEmail (trim form.email) = false)) ∨
      (f = "phone" ∧ (trim form.phone ≠ [] ∧ validatePhone (trim form.phone) = false)) ∨
      (f = "message" ∧
        ((trim form.message).length < 10 ∨ 1000 < (trim form.message).length))) ∧
    "service" ∉ (submitHandler form fs now sendThrows).errorFields ∧
    ((submitHandler form fs now sendThrows).outcome = Outcome.ValidationFailed ↔
      (submitHandler form fs now sendThrows).errorFields ≠ []) ∧
    ((trim form.message).length = 9 →
      "message" ∈ (submitHandler form fs now sendThrows).errorFields) ∧
    ((trim form.message).length = 10 →
      "message" ∉ (submitHandler form fs now sendThrows).errorFields) ∧
    (form.name = utf16 "" → form.email = utf16 "bad" → form.message = utf16 "short" →
      trim form.phone = [] →
      ∀ f : String, f ∈ (submitHandler form fs now sendThrows).errorFields ↔
        f = "name" ∨ f = "email" ∨ f = "message") := by
  have hp' : truthyHoneypot form.website = false := (truthyHoneypot_eq_false_iff _).2 hp
  obtain ⟨hshown, hout⟩ := submitHandler_past_gates form fs now sendThrows hp' hl
  have hmem : ∀ f : String, f ∈ (submitHandler form fs now sendThrows).errorFields ↔
      (f = "name" ∧ nameBad (trim form.name)) ∨ (f = "email" ∧ emailBad (trim form.email)) ∨
      (f = "phone" ∧ phoneBad (trim form.phone)) ∨
      (f = "message" ∧ messageBad (trim form.message)) := by
    intro f
    unfold SubmitResult.errorFields
    rw [hshown]
    exact mem_validateFields_fields _ _ _ _ f
  refine ⟨hmem, ?_, ?_, ?_, ?_, ?_⟩
  · rw [hmem]
    simp
  · rw [hout, validateFields_hasErrors_iff]
    unfold SubmitResult.errorFields
    rw [hshown]
  · intro h9
    rw [hmem]
    refine Or.inr (Or.inr (Or.inr ⟨rfl, Or.inl ?_⟩))
    omega
  · intro h10
    rw [hmem]
    have h4 : ¬ messageBad (trim form.message) := by
      unfold messageBad
      omega
    simp [h4]
  · intro hn he hm hph f
    rw [hmem, hn, he, hm, hph]
    have h1 : nameBad (trim (utf16 "")) := by decide
    have h2 : emailBad (trim (utf16 "bad")) := by decide
    have h3 : ¬ phoneBad [] := by simp [phoneBad]
    have h4 : messageBad (trim (utf16 "short")) := by decide
    simp [h1, h2, h3, h4]

theorem validation_reports_all_fields_witness :
    (badForm.website = none ∨ badForm.website = some []) ∧
    (checkRateLimit initialSubmissions 5).1 = true ∧
    "service" ∉ (submitHandler badForm initialSubmissions 5 false).errorFields ∧
    ((submitHandler badForm initialSubmissions 5 false).outcome = Outcome.ValidationFailed ↔
      (submitHandler badForm initialSubmissions 5 false).errorFields ≠ []) ∧
    (∀ f : String, f ∈ (submitHandler badForm initialSubmissions 5 false).errorFields ↔
      f = "name" ∨ f = "email" ∨ f = "message") :=
  have h := validation_reports_all_fields badForm initialSubmissions 5 false (Or.inl rfl)
    (by decide)
  ⟨Or.inl rfl, by decide, h.2.1, h.2.2.1, h.2.2.2.2.2 rfl rfl rfl (by decide)⟩

/-- C8: for an attempt with an empty honeypot field, `formSubmissions` after the
listener is the state left by `checkRateLimit` alone, whatever the fields hold
and whichever path the listener ends on; so an allowed attempt that then fails
field validation has still been counted (count raised by one, or a new window
opened at `now` with count 1). -/
theorem attempt_is_spent (form : FormData) (fs : FormSubmissions) (now : Int)
    (sendThrows : Bool) (hp : form.website = none ∨ form.website = some []) :
    (submitHandler form fs now sendThrows).submissions = (checkRateLimit fs now).2 ∧
    ((submitHandler form fs now sendThrows).outcome = Outcome.ValidationFailed →
      (checkRateLimit fs now).1 = true ∧
      ((submitHandler form fs now sendThrows).submissions =
          { fs with count := fs.count + 1 } ∨
        (submitHandler form fs now sendThrows).submissions =
          { count := 1, firstSubmission := some now })) := by
  have hp' : truthyHoneypot form.website = false := (truthyHoneypot_eq_false_iff _).2 hp
  have hsub : (submitHandler form fs now sendThrows).submissions = (checkRateLimit fs now).2 := by
    unfold submitHandler
    simp only [hp', Bool.false_eq_true, if_false]
    split_ifs <;> rfl
  refine ⟨hsub, fun hv => ?_⟩
  have hl : (checkRateLimit fs now).1 = true := by
    cases h : (checkRateLimit fs now).1
    · exfalso
      unfold submitHandler at hv
      simp [hp', h] at hv
    · rfl
  refine ⟨hl, ?_⟩
  rw [hsub]
  unfold checkRateLimit at hl ⊢
  split_ifs at hl ⊢ with a b c
  · exact Or.inr rfl
  · exact Or.inr rfl
  · exact Or.inl rfl

theorem attempt_is_spent_witness :
    (badForm.website = none ∨ badForm.website = some []) ∧
    (submitHandler badForm { count := 1, firstSubmission := some 1000 } 2000 false).outcome =
      Outcome.ValidationFailed ∧
    (submitHandler badForm { count := 1, firstSubmission := some 1000 } 2000 false).submissions =
      (checkRateLimit { count := 1, firstSubmission := some 1000 } 2000).2 ∧
    (checkRateLimit { count := 1, firstSubmission := some 1000 } 2000).2 =
      { count := 2, firstSubmission := some 1000 } :=
  ⟨Or.inl rfl, by decide,
    (attempt_is_spent badForm { count := 1, firstSubmission := some 1000 } 2000 false
      (Or.inl rfl)).1, by decide⟩

/-! ## Theorems: the regular-expression matcher -/

theorem eatExactly_iff (p : Nat → Bool) (k : JSString → Bool) :
    ∀ (n : Nat) (s : JSString), eatExactly p k n s = true ↔
      ∃ w r, s = w ++ r ∧ w.length = n ∧ (∀ c ∈ w, p c = true) ∧ k r = true := by
  intro n
  induction n with
  | zero =>
    intro s
    simp only [eatExactly]
    constructor
    · intro h
      exact ⟨[], s, rfl, rfl, by simp, h⟩
    · rintro ⟨w, r, rfl, hlen, _, hk⟩
      have hw : w = [] := List.length_eq_zero.mp hlen
      subst hw
      simpa using hk
  | succ n ih =>
    intro s
    cases s with
    | nil =>
      simp only [eatExactly]
      constructor
      · intro h
        exact absurd h (by simp)
      · rintro ⟨w, r, hs, hlen, _, _⟩
        cases w with
        | nil => simp at hlen
        | cons c w => simp at hs
    | cons c t =>
      simp only [eatExactly, Bool.and_eq_true, ih]
      constructor
      · rintro ⟨hc, w, r, rfl, hlen, hall, hk⟩
        refine ⟨c :: w, r, rfl, by simp [hlen], ?_, hk⟩
        intro x hx
        rcases List.mem_cons.mp hx with rfl | hx
        · exact hc
        · exact hall x hx
      · rintro ⟨w, r, hs, hlen, hall, hk⟩
        cases w with
        | nil => simp at hlen
        | cons c1 w =>
          simp only [List.cons_append, List.cons.injEq] at hs
          obtain ⟨rfl, rfl⟩ := hs
          refine ⟨hall c (by simp), w, r, rfl, by simpa using hlen, ?_, hk⟩
          intro x hx
          exact hall x (by simp [hx])

theorem eatUpTo_iff (p : Nat → Bool) (k : JSString → Bool) :
    ∀ (n : Nat) (s : JSString), eatUpTo p k n s = true ↔
      ∃ w r, s = w ++ r ∧ w.length ≤ n ∧ (∀ c ∈ w, p c = true) ∧ k r = true := by
  intro n
  induction n with
  | zero =>
    intro s
    simp only [eatUpTo]
    constructor
    · intro h
      exact ⟨[], s, rfl, Nat.le_refl _, by simp, h⟩
    · rintro ⟨w, r, rfl, hlen, _, hk⟩
      have hw : w = [] := List.length_eq_zero.mp (Nat.le_zero.mp hlen)
      subst hw
      simpa using hk
  | succ n ih =>
    intro s
    cases s with
    | nil =>
      simp only [eatUpTo]
      constructor
      · intro h
        exact ⟨[], [], rfl, Nat.zero_le _, by simp, h⟩
      · rintro ⟨w, r, hs, _, _, hk⟩
        have hr : r = [] := (List.append_eq_nil.mp hs.symm).2
        subst hr
        exact hk
    | cons c t =>
      simp only [eatUpTo, Bool.or_eq_true, Bool.and_eq_true, ih]
      constructor
      · rintro (⟨hc, w, r, rfl, hlen, hall, hk⟩ | hk)
        · refine ⟨c :: w, r, rfl, by simp; omega, ?_, hk⟩
          intro x hx
          rcases List.mem_cons.mp hx with rfl | hx
          · exact hc
          · exact hall x hx
        · exact ⟨[], c :: t, rfl, Nat.zero_le _, by simp, hk⟩
      · rintro ⟨w, r, hs, hlen, hall, hk⟩
        cases w with
        | nil =>
          right
          simp only [List.nil_append] at hs
          rw [hs]
          exact hk
        | cons c1 w =>
          left
          simp only [List.cons_append, List.cons.injEq] at hs
          obtain ⟨rfl, rfl⟩ := hs
          refine ⟨hall c (by simp), w, r, rfl, ?_, ?_, hk⟩
          · simp only [List.length_cons] at hlen
            omega
          · intro x hx
            exact hall x (by simp [hx])

theorem Term.run_iff (t : Term) (hwf : ∀ m, t.max = some m → t.min ≤ m)
    (k : JSString → Bool) (s : JSString) :
    t.run k s = true ↔ ∃ w r, s = w ++ r ∧ t.Accepts w ∧ k r = true := by
  unfold Term.run Term.Accepts
  rw [eatExactly_iff]
  constructor
  · rintro ⟨w1, r1, rfl, hlen, hall1, h⟩
    rw [eatUpTo_iff] at h
    obtain ⟨w2, r2, rfl, hlen2, hall2, hk⟩ := h
    refine ⟨w1 ++ w2, r2, by simp, ⟨by simp; omega, ?_, ?_⟩, hk⟩
    · intro m hm
      have := hwf m hm
      rw [hm] at hlen2
      simp only [List.length_append] at hlen2 ⊢
      omega
    · intro c hc
      rcases List.mem_append.mp hc with h | h
      · exact hall1 c h
      · exact hall2 c h
  · rintro ⟨w, r, rfl, ⟨hmin, hmax, hall⟩, hk⟩
    refine ⟨w.take t.min, w.drop t.min ++ r, ?_, ?_, ?_, ?_⟩
    · rw [← List.append_assoc, List.take_append_drop]
    · simp [List.length_take, hmin]
    · intro c hc
      exact hall c (List.mem_of_mem_take hc)
    · rw [eatUpTo_iff]
      refine ⟨w.drop t.min, r, rfl, ?_, ?_, hk⟩
      · cases hm : t.max with
        | none => simp
        | some m =>
          have := hmax m hm
          simp only [List.length_drop]
          omega
      · intro c hc
        exact hall c (List.mem_of_mem_drop hc)

theorem accepts_one (p : Nat → Bool) (w : JSString) :
    (Term.one p).Accepts w ↔ ∃ c, p c = true ∧ w = [c] := by
  unfold Term.Accepts Term.one
  constructor
  · rintro ⟨h1, h2, h3⟩
    have h2' := h2 1 rfl
    match w, h1, h2', h3 with
    | [c], _, _, h3 => exact ⟨c, h3 c (by simp), rfl⟩
  · rintro ⟨c, hc, rfl⟩
    refine ⟨by simp, ?_, by simpa using hc⟩
    intro m hm
    simp only [Option.some.injEq] at hm
    subst hm
    simp

theorem accepts_opt (p : Nat → Bool) (w : JSString) :
    (Term.opt p).Accepts w ↔ w = [] ∨ ∃ c, p c = true ∧ w = [c] := by
  unfold Term.Accepts Term.opt
  constructor
  · rintro ⟨_, h2, h3⟩
    have h2' := h2 1 rfl
    match w, h2', h3 with
    | [], _, _ => exact Or.inl rfl
    | [c], _, h3 => exact Or.inr ⟨c, h3 c (by simp), rfl⟩
  · rintro (rfl | ⟨c, hc, rfl⟩)
    · simp
    · refine ⟨by simp, ?_, by simpa using hc⟩
      intro m hm
      simp only [Option.some.injEq] at hm
      subst hm
      simp

theorem accepts_plus (p : Nat → Bool) (w : JSString) :
    (Term.plus p).Accepts w ↔ w ≠ [] ∧ ∀ c ∈ w, p c = true := by
  unfold Term.Accepts Term.plus
  constructor
  · rintro ⟨h1, _, h3⟩
    refine ⟨?_, h3⟩
    rintro rfl
    simp at h1
  · rintro ⟨h1, h3⟩
    refine ⟨?_, by simp, h3⟩
    cases w with
    | nil => exact absurd rfl h1
    | cons c t => simp

theorem accepts_rep (p : Nat → Bool) (m n : Nat) (w : JSString) :
    (Term.rep p m n).Accepts w ↔ m ≤ w.length ∧ w.length ≤ n ∧ ∀ c ∈ w, p c = true := by
  unfold Term.Accepts Term.rep
  constructor
  · rintro ⟨h1, h2, h3⟩
    exact ⟨h1, h2 n rfl, h3⟩
  · rintro ⟨h1, h2, h3⟩
    refine ⟨h1, ?_, h3⟩
    intro k hk
    simp only [Option.some.injEq] at hk
    subst hk
    exact h2

theorem matchTerms_nil_iff (s : JSString) : matchTerms [] s = true ↔ s = [] := by
  cases s <;> simp [matchTerms]

theorem matchTerms_cons_iff (t : Term) (hwf : ∀ m, t.max = some m → t.min ≤ m)
    (rest : List Term) (s : JSString) :
    matchTerms (t :: rest) s = true ↔
      ∃ w r, s = w ++ r ∧ t.Accepts w ∧ matchTerms rest r = true := by
  simp only [matchTerms]
  exact Term.run_iff t hwf _ s

theorem matchTerms_one (p : Nat → Bool) (rest : List Term) (s : JSString) :
    matchTerms (Term.one p :: rest) s = true ↔
      ∃ c r, s = c :: r ∧ p c = true ∧ matchTerms rest r = true := by
  rw [matchTerms_cons_iff _ (by simp [Term.one])]
  constructor
  · rintro ⟨w, r, rfl, hw, hr⟩
    obtain ⟨c, hc, rfl⟩ := (accepts_one p w).1 hw
    exact ⟨c, r, rfl, hc, hr⟩
  · rintro ⟨c, r, rfl, hc, hr⟩
    exact ⟨[c], r, rfl, (accepts_one p [c]).2 ⟨c, hc, rfl⟩, hr⟩

theorem matchTerms_opt (p : Nat → Bool) (rest : List Term) (s : JSString) :
    matchTerms (Term.opt p :: rest) s = true ↔
      ∃ w r, s = w ++ r ∧ (w = [] ∨ ∃ c, p c = true ∧ w = [c]) ∧
        matchTerms rest r = true := by
  rw [matchTerms_cons_iff _ (by simp [Term.opt])]
  simp only [accepts_opt]

theorem matchTerms_plus (p : Nat → Bool) (rest : List Term) (s : JSString) :
    matchTerms (Term.plus p :: rest) s = true ↔
      ∃ w r, s = w ++ r ∧ (w ≠ [] ∧ ∀ c ∈ w, p c = true) ∧ matchTerms rest r = true := by
  rw [matchTerms_cons_iff _ (by simp [Term.plus])]
  simp only [accepts_plus]

theorem matchTerms_rep (p : Nat → Bool) (m n : Nat) (hmn : m ≤ n) (rest : List Term)
    (s : JSString) :
    matchTerms (Term.rep p m n :: rest) s = true ↔
      ∃ w r, s = w ++ r ∧ (m ≤ w.length ∧ w.length ≤ n ∧ ∀ c ∈ w, p c = true) ∧
        matchTerms rest r = true := by
  rw [matchTerms_cons_iff _ (by simpa [Term.rep] using hmn)]
  simp only [accepts_rep]

/-! ## Theorems: `validateEmail` -/

theorem notSpaceAt_iff (c : Nat) :
    notSpaceAt c = true ↔ isWhiteSpace c = false ∧ c ≠ chAt := by
  unfold notSpaceAt
  cases h : isWhiteSpace c <;> simp

theorem takeWhile_append_cons {p : Nat → Bool} (a : JSString) (y : Nat) (r : JSString)
    (ha : ∀ x ∈ a, p x = true) (hy : p y = false) :
    (a ++ y :: r).takeWhile p = a ∧ (a ++ y :: r).dropWhile p = y :: r := by
  induction a with
  | nil => simp [List.takeWhile, List.dropWhile, hy]
  | cons x a ih =>
    have hx : p x = true := ha x (by simp)
    have ih' := ih (fun z hz => ha z (by simp [hz]))
    simp [List.takeWhile, List.dropWhile, hx, ih'.1, ih'.2]

theorem validateEmail_iff_parts (s : JSString) :
    validateEmail s = true ↔
      ∃ a b c, s = a ++ chAt :: (b ++ chDot :: c) ∧
        (a ≠ [] ∧ ∀ x ∈ a, notSpaceAt x = true) ∧
        (b ≠ [] ∧ ∀ x ∈ b, notSpaceAt x = true) ∧
        (c ≠ [] ∧ ∀ x ∈ c, notSpaceAt x = true) := by
  unfold validateEmail regexTest emailRe
  rw [matchTerms_plus]
  constructor
  · rintro ⟨a, r1, rfl, ha, h⟩
    rw [matchTerms_one] at h
    obtain ⟨x, r2, rfl, hx, h⟩ := h
    rw [matchTerms_plus] at h
    obtain ⟨b, r3, rfl, hb, h⟩ := h
    rw [matchTerms_one] at h
    obtain ⟨y, r4, rfl, hy, h⟩ := h
    rw [matchTerms_plus] at h
    obtain ⟨c, r5, rfl, hc, h⟩ := h
    rw [matchTerms_nil_iff] at h
    subst h
    have hx' : x = chAt := by simpa using hx
    have hy' : y = chDot := by simpa using hy
    subst hx' hy'
    exact ⟨a, b, c, by simp, ha, hb, hc⟩
  · rintro ⟨a, b, c, rfl, ha, hb, hc⟩
    refine ⟨a, chAt :: (b ++ chDot :: c), rfl, ha, ?_⟩
    rw [matchTerms_one]
    refine ⟨chAt, b ++ chDot :: c, rfl, by simp, ?_⟩
    rw [matchTerms_plus]
    refine ⟨b, chDot :: c, rfl, hb, ?_⟩
    rw [matchTerms_one]
    refine ⟨chDot, c, rfl, by simp, ?_⟩
    rw [matchTerms_plus]
    exact ⟨c, [], by simp, hc, by simp [matchTerms]⟩

theorem emailShape_of_parts (a b c : JSString)
    (ha : a ≠ [] ∧ ∀ x ∈ a, notSpaceAt x = true)
    (hb : b ≠ [] ∧ ∀ x ∈ b, notSpaceAt x = true)
    (hc : c ≠ [] ∧ ∀ x ∈ c, notSpaceAt x = true) :
    EmailShape (a ++ chAt :: (b ++ chDot :: c)) := by
  have hna : ∀ x ∈ a, (x != chAt) = true := fun x hx => by
    simpa using ((notSpaceAt_iff x).1 (ha.2 x hx)).2
  have hsplit := takeWhile_append_cons (p := fun c => c != chAt) a chAt (b ++ chDot :: c) hna
    (by simp)
  have hcount : ∀ w : JSString, (∀ x ∈ w, notSpaceAt x = true) → w.count chAt = 0 := by
    intro w hw
    rw [List.count_eq_zero]
    intro hmem
    exact ((notSpaceAt_iff _).1 (hw _ hmem)).2 rfl
  refine ⟨?_, ?_, ?_, ?_⟩
  · intro x hx
    simp only [List.mem_append, List.mem_cons] at hx
    rcases hx with hx | rfl | hx | rfl | hx
    · exact ((notSpaceAt_iff x).1 (ha.2 x hx)).1
    · decide
    · exact ((notSpaceAt_iff x).1 (hb.2 x hx)).1
    · decide
    · exact ((notSpaceAt_iff x).1 (hc.2 x hx)).1
  · have hdot : (chDot == chAt) = false := by decide
    simp [List.count_append, List.count_cons, hcount a ha.2, hcount b hb.2, hcount c hc.2,
      hdot]
  · unfold localPart
    rw [hsplit.1]
    exact ha.1
  · unfold domainPart
    rw [hsplit.2]
    simp only [List.drop_succ_cons, List.drop_zero]
    refine ⟨b.length, ?_, ?_, ?_⟩
    · exact List.length_pos.mpr hb.1
    · have := List.length_pos.mpr hc.1
      simp only [List.length_append, List.length_cons]
      omega
    · rw [List.getElem?_append_right (Nat.le_refl _)]
      simp

theorem parts_of_emailShape (s : JSString) (h : EmailShape s) :
    ∃ a b c, s = a ++ chAt :: (b ++ chDot :: c) ∧
      (a ≠ [] ∧ ∀ x ∈ a, notSpaceAt x = true) ∧
      (b ≠ [] ∧ ∀ x ∈ b, notSpaceAt x = true) ∧
      (c ≠ [] ∧ ∀ x ∈ c, notSpaceAt x = true) := by
  obtain ⟨hws, hcount, hloc, i, hi0, hi1, hidx⟩ := h
  have hs : s = localPart s ++ s.dropWhile (fun c => c != chAt) :=
    (List.takeWhile_append_dropWhile _ s).symm
  have hloc_ne : ∀ x ∈ localPart s, x ≠ chAt := by
    intro x hx
    have := List.mem_takeWhile_imp hx
    simpa using this
  have hloc_count : (localPart s).count chAt = 0 :=
    List.count_eq_zero.mpr (fun hm => hloc_ne _ hm rfl)
  cases hrest : s.dropWhile (fun c => c != chAt) with
  | nil =>
    exfalso
    rw [hrest, List.append_nil] at hs
    rw [hs, hloc_count] at hcount
    exact absurd hcount (by decide)
  | cons y d =>
    have hy : y = chAt := by
      have h0 := List.head_dropWhile_not (fun c => c != chAt) s (by rw [hrest]; simp)
      simp only [hrest, List.head_cons] at h0
      simpa using h0
    subst hy
    have hd : domainPart s = d := by
      unfold domainPart
      rw [hrest]
      rfl
    rw [hd] at hi1 hidx
    rw [hrest] at hs
    have hd_count : d.count chAt = 0 := by
      have h1 := hcount
      rw [hs, List.count_append, List.count_cons, hloc_count] at h1
      simpa using h1
    have hd_ne : ∀ x ∈ d, x ≠ chAt := fun x hx hxe =>
      List.count_eq_zero.mp hd_count (hxe ▸ hx)
    have hd_split : d = d.take i ++ chDot :: d.drop (i + 1) := by
      have hlt : i < d.length := by omega
      have hget : d[i] = chDot := by
        rw [List.getElem?_eq_getElem hlt] at hidx
        exact Option.some.inj hidx
      rw [← hget, ← List.drop_eq_getElem_cons hlt, List.take_append_drop]
    have hd_mem : ∀ x ∈ d, x ∈ s := by
      intro x hx
      rw [hs]
      simp [hx]
    refine ⟨localPart s, d.take i, d.drop (i + 1), ?_, ⟨hloc, ?_⟩, ⟨?_, ?_⟩, ⟨?_, ?_⟩⟩
    · rw [← hd_split]
      exact hs
    · intro x hx
      rw [notSpaceAt_iff]
      refine ⟨hws x ?_, hloc_ne x hx⟩
      rw [hs]
      simp [hx]
    · intro hnil
      have := congrArg List.length hnil
      simp only [List.length_take, List.length_nil] at this
      omega
    · intro x hx
      have hxd := List.mem_of_mem_take hx
      rw [notSpaceAt_iff]
      exact ⟨hws x (hd_mem x hxd), hd_ne x hxd⟩
    · intro hnil
      have := congrArg List.length hnil
      simp only [List.length_drop, List.length_nil] at this
      omega
    · intro x hx
      have hxd := List.mem_of_mem_drop hx
      rw [notSpaceAt_iff]
      exact ⟨hws x (hd_mem x hxd), hd_ne x hxd⟩

/-- C5: `validateEmail(s)` is `true` exactly when `s` has no white space, exactly
one `@`, a non-empty part before the `@`, and after the `@` a `.` that is
neither its first nor its last code unit; `"a@b.com"` is accepted, `"a@b"` and
`"a b@c.com"` are rejected. -/
theorem validateEmail_accepts_exactly :
    (∀ s : JSString, validateEmail s = true ↔ EmailShape s) ∧
    validateEmail (utf16 "a@b.com") = true ∧
    validateEmail (utf16 "a@b") = false ∧
    validateEmail (utf16 "a b@c.com") = false := by
  refine ⟨fun s => ?_, by decide, by decide, by decide⟩
  rw [validateEmail_iff_parts]
  constructor
  · rintro ⟨a, b, c, rfl, ha, hb, hc⟩
    exact emailShape_of_parts a b c ha hb hc
  · exact parts_of_emailShape s

/-! ## Theorems: `validatePhone` -/

theorem optUnit_eq_iff (a : Nat) (w : JSString) :
    (w = [] ∨ ∃ c, (c == a) = true ∧ w = [c]) ↔ OptUnit (fun c => c = a) w := by
  unfold OptUnit
  simp

theorem isSep_of_isSeparator (c : Nat) (h : IsSeparator c) : isSep c = true := by
  rcases h with rfl | rfl <;> decide

theorem isSeparator_of_isSep (c : Nat) (h : isSep c = true) (hw : isWhiteSpace c = false) :
    IsSeparator c := by
  unfold isSep at h
  rw [hw] at h
  simp only [Bool.or_false, Bool.or_eq_true, beq_iff_eq] at h
  exact h

theorem optUnit_sep_iff (w : JSString) (hw : ∀ c ∈ w, isWhiteSpace c = false) :
    (w = [] ∨ ∃ c, isSep c = true ∧ w = [c]) ↔ OptUnit IsSeparator w := by
  unfold OptUnit
  constructor
  · rintro (h | ⟨c, hc, rfl⟩)
    · exact Or.inl h
    · exact Or.inr ⟨c, isSeparator_of_isSep c hc (hw c (by simp)), rfl⟩
  · rintro (h | ⟨c, hc, rfl⟩)
    · exact Or.inl h
    · exact Or.inr ⟨c, isSep_of_isSeparator c hc, rfl⟩

theorem stripSpaces_no_space (p : JSString) : ∀ c ∈ stripSpaces p, isWhiteSpace c = false := by
  intro c hc
  unfold stripSpaces at hc
  simpa using (List.mem_filter.mp hc).2

theorem matchTerms_phoneRe_iff (t : JSString) (hns : ∀ c ∈ t, isWhiteSpace c = false) :
    matchTerms phoneRe t = true ↔ LoosePhoneShape t := by
  unfold phoneRe LoosePhoneShape
  simp only [matchTerms_opt, matchTerms_rep _ 1 4 (by decide), matchTerms_rep _ 1 9 (by decide),
    matchTerms_nil_iff, optUnit_eq_iff]
  constructor
  · rintro ⟨w1, r1, rfl, h1, w2, r2, rfl, h2, w3, r3, rfl, h3, w4, r4, rfl, h4, w5, r5, rfl, h5,
      w6, r6, rfl, h6, w7, r7, rfl, h7, w8, r8, rfl, h8, w9, r9, rfl, h9, w10, r10, rfl, h10,
      w11, r11, rfl, h11, w12, r12, rfl, h12, rfl⟩
    refine ⟨w1, w2, w3, w4, w5, w6, w7, w8, w9, w10, w11, w12, by simp, h1, h2, h3, h4, ?_,
      h6, h7, h8, ?_, h10, ?_, h12⟩
    · exact (optUnit_sep_iff w5 (fun c hc => hns c (by simp [hc]))).1 h5
    · exact (optUnit_sep_iff w9 (fun c hc => hns c (by simp [hc]))).1 h9
    · exact (optUnit_sep_iff w11 (fun c hc => hns c (by simp [hc]))).1 h11
  · rintro ⟨w1, w2, w3, w4, w5, w6, w7, w8, w9, w10, w11, w12, rfl, h1, h2, h3, h4, h5, h6, h7,
      h8, h9, h10, h11, h12⟩
    refine ⟨w1, _, rfl, h1, w2, _, rfl, h2, w3, _, rfl, h3, w4, _, rfl, h4, w5, _, rfl, ?_,
      w6, _, rfl, h6, w7, _, rfl, h7, w8, _, rfl, h8, w9, _, rfl, ?_, w10, _, rfl, h10,
      w11, _, rfl, ?_, w12, [], by simp, h12, rfl⟩
    · exact (optUnit_sep_iff w5 (fun c hc => hns c (by simp [hc]))).2 h5
    · exact (optUnit_sep_iff w9 (fun c hc => hns c (by simp [hc]))).2 h9
    · exact (optUnit_sep_iff w11 (fun c hc => hns c (by simp [hc]))).2 h11

theorem validatePhone_iff_loose (p : JSString) :
    validatePhone p = true ↔ LoosePhoneShape (stripSpaces p) := by
  unfold validatePhone regexTest
  exact matchTerms_phoneRe_iff _ (stripSpaces_no_space p)

theorem parenGroup_loose (w : JSString) (h : ParenGroup w) :
    ∃ lp g rp, w = lp ++ (g ++ rp) ∧ OptUnit (fun c => c = chLParen) lp ∧ DigitGroup 1 4 g ∧
      OptUnit (fun c => c = chRParen) rp := by
  obtain ⟨g, hg, hw | hw⟩ := h
  · exact ⟨[], g, [], by simp [hw], Or.inl rfl, hg, Or.inl rfl⟩
  · exact ⟨[chLParen], g, [chRParen], by simp [hw], Or.inr ⟨_, rfl, rfl⟩, hg,
      Or.inr ⟨_, rfl, rfl⟩⟩

theorem loose_of_strict (t : JSString) (h : StrictPhoneShape t) : LoosePhoneShape t := by
  obtain ⟨plus, gp1, sep1, gp2, sep2, g3, sep3, g4, rfl, h1, h2, h3, h4, h5, h6, h7, h8⟩ := h
  obtain ⟨lp1, g1, rp1, rfl, ha, hb, hc⟩ := parenGroup_loose gp1 h2
  obtain ⟨lp2, g2, rp2, rfl, hd, he, hf⟩ := parenGroup_loose gp2 h4
  exact ⟨plus, lp1, g1, rp1, sep1, lp2, g2, rp2, sep2, g3, sep3, g4, by simp, h1, ha, hb, hc, h3,
    hd, he, hf, h5, h6, h7, h8⟩

theorem not_strict_unbalanced : ¬ StrictPhoneShape [40, 49, 50, 51, 52] := by
  rintro ⟨plus, gp1, sep1, gp2, sep2, g3, sep3, g4, heq, h1, ⟨g, hg, hgp⟩, _⟩
  have hplus : plus = [] := by
    rcases h1 with h | ⟨c, hc, h⟩
    · exact h
    · subst h
      subst hc
      simp [chPlus] at heq
  subst hplus
  rcases hgp with h | h
  · subst h
    obtain ⟨hlen, _, hdig⟩ := hg
    cases gp1 with
    | nil => simp at hlen
    | cons c g =>
      have hc : isDigit c = true := hdig c (by simp)
      simp only [List.nil_append, List.cons_append, List.cons.injEq] at heq
      rw [← heq.1] at hc
      exact absurd hc (by decide)
  · subst h
    have hmem : chRParen ∈ [40, 49, 50, 51, 52] := by
      rw [heq]
      simp
    exact absurd hmem (by decide)

/-- C6, refuted as stated: `validatePhone` accepts `"(1234"`, whose opening
parenthesis has no closing one, so the string is not of the shape with matching
pairs of parentheses. -/
theorem validatePhone_unbalanced_paren :
    validatePhone (utf16 "(1234") = true ∧
    ¬ StrictPhoneShape (stripSpaces (utf16 "(1234")) := by
  refine ⟨by decide, ?_⟩
  have h : stripSpaces (utf16 "(1234") = [40, 49, 50, 51, 52] := by decide
  rw [h]
  exact not_strict_unbalanced

/-- C6, amended: `validatePhone(p)` is `true` exactly when `p` without its white
space is an optional `+`, two groups of 1 to 4 digits, each optionally preceded
by `(` and, independently, optionally followed by `)` and then by one separator
`-` or `.`, a bare group of 1 to 4 digits optionally followed by one separator,
and a final group of 1 to 9 digits. Every string of the shape with matching
parentheses is accepted; `"+61 427 661 175"` is accepted, `"abc"` rejected. -/
theorem validatePhone_accepts_exactly :
    (∀ p : JSString, validatePhone p = true ↔ LoosePhoneShape (stripSpaces p)) ∧
    (∀ p : JSString, StrictPhoneShape (stripSpaces p) → validatePhone p = true) ∧
    validatePhone (utf16 "+61 427 661 175") = true ∧
    validatePhone (utf16 "abc") = false := by
  refine ⟨validatePhone_iff_loose, fun p h => ?_, by decide, by decide⟩
  exact (validatePhone_iff_loose p).2 (loose_of_strict _ h)

/-! ## Theorems: `sanitizeInput` -/

theorem sanitizeInput_eq_escapeText (input : JSString) :
    sanitizeInput input = escapeText input := by
  unfold sanitizeInput setTextContent innerHTML
  cases input with
  | nil => simp [escapeText]
  | cons c t => simp

theorem escapeText_cons (c : Nat) (s : JSString) :
    escapeText (c :: s) = escapeUnit c ++ escapeText s := by
  simp [escapeText]

theorem escapeUnit_cases (c : Nat) :
    (c = 38 ∧ escapeUnit c = [38, 97, 109, 112, 59]) ∨
    (c = 160 ∧ escapeUnit c = [38, 110, 98, 115, 112, 59]) ∨
    (c = 60 ∧ escapeUnit c = [38, 108, 116, 59]) ∨
    (c = 62 ∧ escapeUnit c = [38, 103, 116, 59]) ∨
    (c ≠ 38 ∧ c ≠ 160 ∧ c ≠ 60 ∧ c ≠ 62 ∧ escapeUnit c = [c]) := by
  unfold escapeUnit
  split_ifs with h1 h2 h3 h4
  · exact Or.inl ⟨h1, rfl⟩
  · exact Or.inr (Or.inl ⟨h2, rfl⟩)
  · exact Or.inr (Or.inr (Or.inl ⟨h3, rfl⟩))
  · exact Or.inr (Or.inr (Or.inr (Or.inl ⟨h4, rfl⟩)))
  · exact Or.inr (Or.inr (Or.inr (Or.inr ⟨h1, h2, h3, h4, rfl⟩)))

theorem resolveRefs_cons_of_ne (c : Nat) (r : JSString) (h : c ≠ 38) :
    resolveRefs (c :: r) = c :: resolveRefs r := by
  rw [resolveRefs]
  all_goals simp_all

theorem resolveRefs_escapeText (s : JSString) : resolveRefs (escapeText s) = s := by
  induction s with
  | nil => simp [escapeText, resolveRefs]
  | cons c s ih =>
    rw [escapeText_cons]
    rcases escapeUnit_cases c with ⟨rfl, h⟩ | ⟨rfl, h⟩ | ⟨rfl, h⟩ | ⟨rfl, h⟩ | ⟨h1, _, _, _, h⟩
    · rw [h]
      simp [resolveRefs, ih]
    · rw [h]
      simp [resolveRefs, ih]
    · rw [h]
      simp [resolveRefs, ih]
    · rw [h]
      simp [resolveRefs, ih]
    · rw [h]
      simp [resolveRefs_cons_of_ne c _ h1, ih]

theorem mem_escapeText (x : Nat) (s : JSString) :
    x ∈ escapeText s ↔ ∃ c ∈ s, x ∈ escapeUnit c := by
  simp [escapeText, List.mem_flatten]

theorem escaped_not_mem_escapeUnit (c x : Nat) (hx : x = 60 ∨ x = 62 ∨ x = 160) :
    x ∉ escapeUnit c := by
  intro hmem
  rcases escapeUnit_cases c with ⟨_, h⟩ | ⟨_, h⟩ | ⟨_, h⟩ | ⟨_, h⟩ | ⟨_, h2, h3, h4, h⟩
  all_goals rw [h] at hmem
  · rcases hx with rfl | rfl | rfl <;> exact absurd hmem (by decide)
  · rcases hx with rfl | rfl | rfl <;> exact absurd hmem (by decide)
  · rcases hx with rfl | rfl | rfl <;> exact absurd hmem (by decide)
  · rcases hx with rfl | rfl | rfl <;> exact absurd hmem (by decide)
  · have hxc : x = c := by simpa using hmem
    subst hxc
    rcases hx with h | h | h
    · exact h3 h
    · exact h4 h
    · exact h2 h

theorem escaped_not_mem_escapeText (x : Nat) (hx : x = 60 ∨ x = 62 ∨ x = 160) (s : JSString) :
    x ∉ escapeText s := by
  rw [mem_escapeText]
  rintro ⟨c, _, hc⟩
  exact escaped_not_mem_escapeUnit c x hx hc

theorem quote_count_escapeUnit (c q : Nat) (hq : q = 34 ∨ q = 39) :
    (escapeUnit c).count q = [c].count q := by
  rcases escapeUnit_cases c with ⟨rfl, h⟩ | ⟨rfl, h⟩ | ⟨rfl, h⟩ | ⟨rfl, h⟩ | ⟨_, _, _, _, h⟩
  all_goals rw [h]
  all_goals rcases hq with rfl | rfl <;> decide

theorem quote_count_escapeText (q : Nat) (hq : q = 34 ∨ q = 39) (s : JSString) :
    (escapeText s).count q = s.count q := by
  induction s with
  | nil => simp [escapeText]
  | cons c s ih =>
    rw [escapeText_cons, List.count_append, ih, quote_count_escapeUnit c q hq]
    rw [← List.count_append]
    rfl

theorem amp_only_at_head (w pre rest : JSString) (hw : w = pre ++ 38 :: rest)
    (ht : 38 ∉ w.tail) : pre = [] := by
  cases pre with
  | nil => rfl
  | cons y pre =>
    exfalso
    apply ht
    rw [hw]
    simp

theorem charRefs_tail : ∀ ref ∈ charRefs, 38 ∉ ref.tail := by
  decide

theorem ampStartsRef_escapeText (s : JSString) : AmpStartsRef (escapeText s) := by
  induction s with
  | nil =>
    intro pre suf h
    simp [escapeText] at h
  | cons c s ih =>
    intro pre suf h
    rw [escapeText_cons, List.append_eq_append_iff] at h
    rcases h with ⟨a, _, ha⟩ | ⟨b, hb, hsuf⟩
    · exact ih a suf ha
    · cases b with
      | nil =>
        simp only [List.nil_append] at hsuf
        exact ih [] suf (by simpa using hsuf.symm)
      | cons x b =>
        simp only [List.cons_append, List.cons.injEq] at hsuf
        obtain ⟨hx, hsuf⟩ := hsuf
        subst hx
        subst hsuf
        have href : ∀ ref ∈ charRefs, escapeUnit c = ref →
            ∃ ref ∈ charRefs, ref <+: 38 :: (b ++ escapeText s) := by
          intro ref hmem heq
          have htail : 38 ∉ (escapeUnit c).tail := by
            rw [heq]
            exact charRefs_tail ref hmem
          have hpre := amp_only_at_head _ pre b hb htail
          subst hpre
          refine ⟨ref, hmem, ?_⟩
          rw [← heq, hb]
          exact ⟨escapeText s, by simp⟩
        rcases escapeUnit_cases c with ⟨_, h⟩ | ⟨_, h⟩ | ⟨_, h⟩ | ⟨_, h⟩ | ⟨h1, _, _, _, h⟩
        · exact href _ (by decide) h
        · exact href _ (by decide) h
        · exact href _ (by decide) h
        · exact href _ (by decide) h
        · exfalso
          rw [h] at hb
          have hpre := amp_only_at_head [c] pre b hb (by simp)
          subst hpre
          simp only [List.nil_append, List.cons.injEq] at hb
          exact h1 hb.1

theorem normalizeNewlines_cons_of_ne (c : Nat) (r : JSString) (h : c ≠ 13) :
    normalizeNewlines (c :: r) = c :: normalizeNewlines r := by
  rw [normalizeNewlines]
  all_goals simp_all

theorem normalizeNewlines_cr_lf (r : JSString) :
    normalizeNewlines (13 :: 10 :: r) = 10 :: normalizeNewlines r := by
  simp [normalizeNewlines]

theorem normalizeNewlines_cr (r : JSString) (h : r.head? ≠ some 10) :
    normalizeNewlines (13 :: r) = 10 :: normalizeNewlines r := by
  cases r with
  | nil => simp [normalizeNewlines]
  | cons d r =>
    have hd : d ≠ 10 := by simpa using h
    rw [normalizeNewlines]
    intro r1 heq
    simp only [List.cons.injEq, true_and] at heq
    exact hd heq.1

theorem newline_cases (P : JSString → Prop) (hnil : P [])
    (hcrlf : ∀ r, P r → P (13 :: 10 :: r))
    (hcr : ∀ r, r.head? ≠ some 10 → P r → P (13 :: r))
    (hother : ∀ c r, c ≠ 13 → P r → P (c :: r)) : ∀ s, P s := by
  have key : ∀ n (s : JSString), s.length ≤ n → P s := by
    intro n
    induction n with
    | zero =>
      intro s hs
      have h0 : s = [] := List.length_eq_zero.mp (Nat.le_zero.mp hs)
      subst h0
      exact hnil
    | succ n ih =>
      intro s hs
      cases s with
      | nil => exact hnil
      | cons c r =>
        have hr : r.length ≤ n := by
          simp only [List.length_cons] at hs
          omega
        by_cases hc : c = 13
        · subst hc
          cases r with
          | nil => exact hcr [] (by simp) hnil
          | cons d r =>
            by_cases hd : d = 10
            · subst hd
              refine hcrlf r (ih r ?_)
              simp only [List.length_cons] at hr
              omega
            · exact hcr (d :: r) (by simpa using hd) (ih _ hr)
        · exact hother c r hc (ih r hr)
  intro s
  exact key s.length s (Nat.le_refl _)

theorem escapeUnit_head (d : Nat) (hd : d ≠ 10) :
    ∀ rest, (escapeUnit d ++ rest).head? ≠ some 10 := by
  rcases escapeUnit_cases d with ⟨_, h⟩ | ⟨_, h⟩ | ⟨_, h⟩ | ⟨_, h⟩ | ⟨_, _, _, _, h⟩
  all_goals rw [h]
  all_goals simp [hd]

theorem escapeText_head (r : JSString) (h : r.head? ≠ some 10) :
    (escapeText r).head? ≠ some 10 := by
  cases r with
  | nil => simp [escapeText]
  | cons d r =>
    have hd : d ≠ 10 := by simpa using h
    rw [escapeText_cons]
    exact escapeUnit_head d hd _

theorem cr_not_mem_escapeUnit (c : Nat) (hc : c ≠ 13) : 13 ∉ escapeUnit c := by
  intro hmem
  rcases escapeUnit_cases c with ⟨_, h⟩ | ⟨_, h⟩ | ⟨_, h⟩ | ⟨_, h⟩ | ⟨_, _, _, _, h⟩
  all_goals rw [h] at hmem
  · exact absurd hmem (by decide)
  · exact absurd hmem (by decide)
  · exact absurd hmem (by decide)
  · exact absurd hmem (by decide)
  · have h13 : 13 = c := by simpa using hmem
    exact hc h13.symm

theorem normalizeNewlines_append (e rest : JSString) (he : 13 ∉ e) :
    normalizeNewlines (e ++ rest) = e ++ normalizeNewlines rest := by
  induction e with
  | nil => rfl
  | cons x e ih =>
    have hx : x ≠ 13 := fun h => he (by simp [h])
    have he2 : 13 ∉ e := fun h => he (by simp [h])
    rw [List.cons_append, normalizeNewlines_cons_of_ne x _ hx, ih he2, List.cons_append]

theorem escapeUnit_lf : escapeUnit 10 = [10] := by
  decide

theorem escapeUnit_cr : escapeUnit 13 = [13] := by
  decide

theorem normalizeNewlines_escapeText (s : JSString) :
    normalizeNewlines (escapeText s) = escapeText (normalizeNewlines s) := by
  refine newline_cases
    (fun s => normalizeNewlines (escapeText s) = escapeText (normalizeNewlines s)) ?_ ?_ ?_ ?_ s
  · simp [escapeText, normalizeNewlines]
  · intro r ih
    simp only at ih ⊢
    rw [normalizeNewlines_cr_lf, escapeText_cons, escapeText_cons, escapeText_cons,
      escapeUnit_cr, escapeUnit_lf, ← ih]
    simp [normalizeNewlines_cr_lf]
  · intro r hr ih
    simp only at ih ⊢
    rw [normalizeNewlines_cr r hr, escapeText_cons, escapeText_cons, escapeUnit_cr,
      escapeUnit_lf, ← ih]
    simp only [List.singleton_append]
    exact normalizeNewlines_cr _ (escapeText_head r hr)
  · intro c r hc ih
    simp only at ih ⊢
    rw [normalizeNewlines_cons_of_ne c r hc, escapeText_cons, escapeText_cons, ← ih]
    exact normalizeNewlines_append _ _ (cr_not_mem_escapeUnit c hc)

theorem cr_not_mem_normalizeNewlines (s : JSString) : 13 ∉ normalizeNewlines s := by
  refine newline_cases (fun s => 13 ∉ normalizeNewlines s) ?_ ?_ ?_ ?_ s
  · simp [normalizeNewlines]
  · intro r ih
    simp only at ih ⊢
    rw [normalizeNewlines_cr_lf]
    simpa using ih
  · intro r hr ih
    simp only at ih ⊢
    rw [normalizeNewlines_cr r hr]
    simpa using ih
  · intro c r hc ih
    simp only at ih ⊢
    rw [normalizeNewlines_cons_of_ne c r hc]
    simp only [List.mem_cons, not_or]
    exact ⟨fun h => hc h.symm, ih⟩

theorem normalizeNewlines_of_no_cr (s : JSString) (h : 13 ∉ s) : normalizeNewlines s = s := by
  have := normalizeNewlines_append s [] h
  simpa [normalizeNewlines] using this

theorem dropNul_of_no_nul (s : JSString) (h : 0 ∉ s) : dropNul s = s := by
  unfold dropNul
  rw [List.filter_eq_self]
  intro c hc
  have : c ≠ 0 := fun h0 => h (h0 ▸ hc)
  simpa using this

theorem parseText_escapeText (s : JSString) :
    parseText (escapeText s) = dropNul (normalizeNewlines s) := by
  unfold parseText
  rw [normalizeNewlines_escapeText, resolveRefs_escapeText]

theorem parseText_escapeText_eq_iff (s : JSString) :
    parseText (escapeText s) = s ↔ 13 ∉ s ∧ 0 ∉ s := by
  rw [parseText_escapeText]
  constructor
  · intro h
    refine ⟨fun hmem => ?_, fun hmem => ?_⟩
    · rw [← h] at hmem
      unfold dropNul at hmem
      exact cr_not_mem_normalizeNewlines s (List.mem_filter.mp hmem).1
    · rw [← h] at hmem
      unfold dropNul at hmem
      simpa using (List.mem_filter.mp hmem).2
  · rintro ⟨h1, h2⟩
    rw [normalizeNewlines_of_no_cr s h1, dropNul_of_no_nul s h2]

/-- C9, refuted as stated: the quote characters are not escaped, so a string
made of one `"` (code unit 34) or one apostrophe (code unit 39) comes back
unchanged and the output holds a literal quote character; and the round trip
is not exact for every input, because an HTML parser reads the carriage return
of `"a\rb"` as a line feed and ignores the U+0000 of `"a\0b"`. -/
theorem sanitizeInput_keeps_quotes :
    sanitizeInput [34] = [34] ∧ sanitizeInput [39] = [39] ∧
    34 ∈ sanitizeInput (utf16 "say \"hi\"") ∧
    parseText (sanitizeInput [97, 13, 98]) = [97, 10, 98] ∧
    parseText (sanitizeInput [97, 13, 98]) ≠ [97, 13, 98] ∧
    parseText (sanitizeInput [97, 0, 98]) = [97, 98] := by
  decide

/-- C9, amended: `sanitizeInput` escapes every `<`, `>`, `&` and U+00A0 of its
input and copies the quote characters: the output holds no literal `<`, `>` or
U+00A0, every `&` in it starts one of the character references `&amp;`,
`&nbsp;`, `&lt;`, `&gt;` (which are what `&`, U+00A0, `<`, `>` alone turn
into), and each quote character occurs in the output as often as in the input.
Parsing the output as HTML text gives the input with every CR LF pair and every
other CR replaced by LF and every U+0000 removed; it gives the input back exactly
if and only if the input holds no CR and no U+0000, as
`"<script>alert(1)</script>"` does. -/
theorem sanitizeInput_neutralises_markup :
    (∀ input : JSString,
      60 ∉ sanitizeInput input ∧ 62 ∉ sanitizeInput input ∧ 160 ∉ sanitizeInput input ∧
      AmpStartsRef (sanitizeInput input) ∧
      (sanitizeInput input).count 34 = input.count 34 ∧
      (sanitizeInput input).count 39 = input.count 39 ∧
      parseText (sanitizeInput input) = dropNul (normalizeNewlines input) ∧
      (parseText (sanitizeInput input) = input ↔ 13 ∉ input ∧ 0 ∉ input)) ∧
    sanitizeInput [38] = utf16 "&amp;" ∧ sanitizeInput [160] = utf16 "&nbsp;" ∧
    sanitizeInput [60] = utf16 "&lt;" ∧ sanitizeInput [62] = utf16 "&gt;" ∧
    sanitizeInput (utf16 "<script>alert(1)</script>") =
      utf16 "&lt;script&gt;alert(1)&lt;/script&gt;" ∧
    parseText (sanitizeInput (utf16 "<script>alert(1)</script>")) =
      utf16 "<script>alert(1)</script>" := by
  refine ⟨fun input => ?_, by decide, by decide, by decide, by decide, by decide, by decide⟩
  rw [sanitizeInput_eq_escapeText]
  exact ⟨escaped_not_mem_escapeText 60 (Or.inl rfl) input,
    escaped_not_mem_escapeText 62 (Or.inr (Or.inl rfl)) input,
    escaped_not_mem_escapeText 160 (Or.inr (Or.inr rfl)) input,
    ampStartsRef_escapeText input, quote_count_escapeText 34 (Or.inl rfl) input,
    quote_count_escapeText 39 (Or.inr rfl) input, parseText_escapeText input,
    parseText_escapeText_eq_iff input⟩

end ArproScript
